/-
Verification of the userve content-delivery engine (unified variant).

The development shallow-embeds the Go source of `userve.go`:
pure computations become Lean functions, the effectful HTTP handler becomes
a function from an abstract write outcome and a lifecycle state to an event
trace and a new state, and the archive writers become functions from a
modelled filesystem tree to the stream of entries handed to the codec.
Machine integers (`int32` fields updated with `sync/atomic`) are modelled as
`Int` reduced by an explicit wrap-around at 2^31.  External collaborators
(the mime table, the OS filesystem, the network peer) are parameters.
-/
import Mathlib

set_option autoImplicit false

namespace Userve

/-- Reduction of an integer to the `int32` value produced by Go's wrapping
two's-complement arithmetic (used for `atomic.Int32` adds and `int32`
subtraction in the handler). -/
def wrap32 (z : Int) : Int := (z + 2147483648) % 4294967296 - 2147483648

/-- Embeds `filepath.Ext`'s backwards scan: starting from the last byte of
the path, stop at a path separator with no extension, or return the suffix
starting at the first dot found.  The first argument accumulates the suffix
already scanned (in forward order); the second is the remaining reversed
path. -/
def extGo : List Char → List Char → String
  | _, [] => ""
  | acc, c :: rest =>
    if c = '/' then ""
    else if c = '.' then String.mk ('.' :: acc)
    else extGo (c :: acc) rest

/-- Embedding of Go's `filepath.Ext` (Unix separators): the suffix beginning
at the final dot in the final element of the path, empty if there is none. -/
def filepath.Ext (path : String) : String := extGo [] path.data.reverse

/-- Embedding of Go's `filepath.Base` (Unix separators): strip trailing
slashes, then take the last element; `"."` for the empty path, `"/"` for a
path of only slashes. -/
def filepath.Base (path : String) : String :=
  if path = "" then "."
  else
    let rev := path.data.reverse.dropWhile (fun c => c = '/')
    if rev = [] then "/"
    else String.mk ((rev.takeWhile (fun c => c ≠ '/')).reverse)

/-- Embedding of `detectMIMEType` from the historical variant
(userve.go lines 199-211).  The external `mime.TypeByExtension` table lookup
is passed as the parameter `typeByExtension`. -/
def detectMIMEType (typeByExtension : String → String) (filename : String) : String :=
  let ext := filepath.Ext filename
  if ext = "" then "application/octet-stream"
  else
    let mimeType := typeByExtension ext
    if mimeType = "" then "application/octet-stream"
    else mimeType

/-- Surrounding quotes added by the handler's `fmt.Sprintf("%q", name)`;
the escaping of special characters inside the name is a `fmt` collaborator
and is not modelled. -/
def goQuote (s : String) : String := "\"" ++ s ++ "\""

/-- State of the lifecycle controller: the handler's `downloadCount`
(`atomic.Int32`, kept as its `int32` value), whether the one-shot
`downloadComplete` channel (buffer size 1) holds a value, and how many sends
into that channel have succeeded (a send that finds the buffer full takes
the `default` branch and is a no-op). -/
structure LifecycleState where
  downloadCount : Int
  signalRaised : Bool
  raiseCount : Nat
  deriving Repr, DecidableEq

/-- Initial lifecycle state: zero completed downloads, empty channel. -/
def initState : LifecycleState :=
  { downloadCount := 0, signalRaised := false, raiseCount := 0 }

/-- Noop-on-full send into the buffered `downloadComplete` channel
(the `select`/`default` idiom at userve.go lines 477-480). -/
def raiseShutdown (s : LifecycleState) : LifecycleState :=
  if s.signalRaised then s
  else { s with signalRaised := true, raiseCount := s.raiseCount + 1 }

/-- Observable steps taken by `handler.ServeHTTP`: waitgroup add/done,
header writes, and log lines. -/
inductive HEvent where
  | incActive
  | decActive
  | logStart
  | setHeader (name value : String)
  | logInterrupted (msg : String)
  | logCompleted
  | logRemaining (n : Int)
  deriving Repr, DecidableEq

/-- Embedding of the completion accounting at the tail of
`handler.ServeHTTP` (userve.go lines 463-482): increment the counter; in
unlimited mode return; otherwise log the remaining slots or attempt the
shutdown signal when `remaining <= 0`.  Returns the log events it prints
and the new lifecycle state. -/
def recordCompletion (maxDownloads : Int) (s : LifecycleState) :
    List HEvent × LifecycleState :=
  let newCount := wrap32 (s.downloadCount + 1)
  let s' : LifecycleState := { s with downloadCount := newCount }
  if maxDownloads = 0 then
    ([], s')
  else
    let remaining := wrap32 (maxDownloads - newCount)
    if remaining > 0 then
      ([HEvent.logRemaining remaining], s')
    else
      ([], raiseShutdown s')

/-- Embedding of the `fileProvider` struct (userve.go lines 485-489). -/
structure fileProvider where
  filePath : String
  fileName : String
  fileSize : Int
  deriving Repr, DecidableEq

/-- Embedding of `fileProvider.Filename`. -/
def fileProvider.Filename (p : fileProvider) : String := p.fileName

/-- Embedding of `fileProvider.ContentType` (userve.go lines 495-501), with
the external `mime.TypeByExtension` lookup as a parameter. -/
def fileProvider.ContentType (typeByExtension : String → String)
    (p : fileProvider) : String :=
  let contentType := typeByExtension (filepath.Ext p.fileName)
  if contentType = "" then "application/octet-stream"
  else contentType

/-- Embedding of `fileProvider.ContentLength`. -/
def fileProvider.ContentLength (p : fileProvider) : Int := p.fileSize

/-- Embedding of `fileProvider.WriteTo` (userve.go lines 507-516): `os.Open`
the path, then copy the file's bytes to the response.  The filesystem is the
parameter `fileBytes` (path to openable file contents); an open failure
returns the error having written nothing.  Returns the `WriteTo` result
together with the bytes written to the response writer. -/
def fileProvider.WriteTo (fileBytes : String → Option (List Nat))
    (p : fileProvider) : Except String Unit × List Nat :=
  match fileBytes p.filePath with
  | none => (Except.error "open", [])
  | some content => (Except.ok (), content)

/-- Embedding of the `ArchiveFormat` enumeration. -/
inductive ArchiveFormat where
  | ArchiveTarGz
  | ArchiveZip
  | ArchiveTar
  deriving Repr, DecidableEq

/-- Embedding of the `archiveProvider` struct (userve.go lines 519-523). -/
structure archiveProvider where
  dirPath : String
  dirName : String
  format : ArchiveFormat
  deriving Repr, DecidableEq

/-- Embedding of `archiveProvider.Filename` (the Go `switch` has an
unreachable `default` arm returning the `.tar.gz` name; the three-valued
enumeration makes the match exhaustive). -/
def archiveProvider.Filename (p : archiveProvider) : String :=
  match p.format with
  | ArchiveFormat.ArchiveTarGz => p.dirName ++ ".tar.gz"
  | ArchiveFormat.ArchiveZip => p.dirName ++ ".zip"
  | ArchiveFormat.ArchiveTar => p.dirName ++ ".tar"

/-- Embedding of `archiveProvider.ContentType`. -/
def archiveProvider.ContentType (p : archiveProvider) : String :=
  match p.format with
  | ArchiveFormat.ArchiveTarGz => "application/gzip"
  | ArchiveFormat.ArchiveZip => "application/zip"
  | ArchiveFormat.ArchiveTar => "application/x-tar"

/-- Embedding of `archiveProvider.ContentLength`: always -1 (streaming). -/
def archiveProvider.ContentLength (_ : archiveProvider) : Int := -1

/-- Embedding of the `contentProvider` interface as the sum of its two
implementations, selected once at startup. -/
inductive contentProvider where
  | file (p : fileProvider)
  | archive (p : archiveProvider)
  deriving Repr, DecidableEq

/-- Dynamic dispatch of `Filename` through the interface. -/
def contentProvider.Filename : contentProvider → String
  | contentProvider.file p => p.Filename
  | contentProvider.archive p => p.Filename

/-- Dynamic dispatch of `ContentType` through the interface. -/
def contentProvider.ContentType (typeByExtension : String → String) :
    contentProvider → String
  | contentProvider.file p => p.ContentType typeByExtension
  | contentProvider.archive p => p.ContentType

/-- Dynamic dispatch of `ContentLength` through the interface. -/
def contentProvider.ContentLength : contentProvider → Int
  | contentProvider.file p => p.ContentLength
  | contentProvider.archive p => p.ContentLength

/-- Embedding of the `handler` struct (userve.go lines 433-439); the mutable
`downloadCount` and the channel live in `LifecycleState`. -/
structure handler where
  provider : contentProvider
  maxDownloads : Int
  deriving Repr, DecidableEq

/-- Header writes performed by `handler.ServeHTTP` (userve.go lines
448-453): Content-Type, Content-Disposition, and Content-Length exactly
when the provider's declared length is non-negative. -/
def headerEvents (typeByExtension : String → String) (p : contentProvider) :
    List HEvent :=
  [HEvent.setHeader "Content-Type" (p.ContentType typeByExtension),
   HEvent.setHeader "Content-Disposition"
     ("attachment; filename=" ++ goQuote p.Filename)] ++
  (if p.ContentLength ≥ 0 then
    [HEvent.setHeader "Content-Length" (toString p.ContentLength)]
   else [])

/-- Embedding of `handler.ServeHTTP` (userve.go lines 441-482).  The result
of the `h.provider.WriteTo(w)` call - which depends on the external
filesystem and network peer - is the parameter `writeResult`.  Returns the
event trace of the request and the updated lifecycle state; the deferred
`activeDownloads.Done()` runs on every exit path. -/
def handler.ServeHTTP (typeByExtension : String → String) (h : handler)
    (writeResult : Except String Unit) (s : LifecycleState) :
    List HEvent × LifecycleState :=
  match writeResult with
  | Except.error e =>
      (HEvent.incActive :: HEvent.logStart ::
        headerEvents typeByExtension h.provider ++
        [HEvent.logInterrupted e, HEvent.decActive], s)
  | Except.ok _ =>
      let r := recordCompletion h.maxDownloads s
      (HEvent.incActive :: HEvent.logStart ::
        headerEvents typeByExtension h.provider ++
        HEvent.logCompleted :: r.1 ++ [HEvent.decActive], r.2)

/-- Lifecycle state after `k` fully successful transfers handled
sequentially by `handler.ServeHTTP`, starting from the initial state. -/
def iterServe (typeByExtension : String → String) (h : handler) :
    Nat → LifecycleState
  | 0 => initState
  | k + 1 =>
      (h.ServeHTTP typeByExtension (Except.ok ())
        (iterServe typeByExtension h k)).2

/-- Running value of the `activeDownloads` waitgroup counter along a trace,
starting from `c`. -/
def runActive (c : Int) : List HEvent → Int
  | [] => c
  | HEvent.incActive :: rest => runActive (c + 1) rest
  | HEvent.decActive :: rest => runActive (c - 1) rest
  | _ :: rest => runActive c rest

/-- Model of the filesystem subtree below the served directory: a file
carries its name, whether `os.Open` on it succeeds, and its bytes; a
directory carries its name and children. -/
inductive FSNode where
  | file (name : String) (readable : Bool) (content : List Nat)
  | dir (name : String) (children : List FSNode)

/-- Name of a filesystem node (what `info.Name()` reports). -/
def FSNode.name : FSNode → String
  | FSNode.file n _ _ => n
  | FSNode.dir n _ => n

/-- Whether a node is a directory (what `info.IsDir()` reports). -/
def FSNode.isDir : FSNode → Bool
  | FSNode.file _ _ _ => false
  | FSNode.dir _ _ => true

/-- Insertion step of the name sort performed by `filepath.Walk`'s
`readDirNames` on each directory's children. -/
def insertNode (c : FSNode) : List FSNode → List FSNode
  | [] => [c]
  | d :: ds => if c.name ≤ d.name then c :: d :: ds else d :: insertNode c ds

/-- Name sort of a directory's children, as `filepath.Walk` reads them. -/
def sortNodes : List FSNode → List FSNode
  | [] => []
  | c :: cs => insertNode c (sortNodes cs)

theorem mem_insertNode {x c : FSNode} : ∀ {l : List FSNode},
    x ∈ insertNode c l → x = c ∨ x ∈ l := by
  intro l
  induction l with
  | nil => simp [insertNode]
  | cons d ds ih =>
      simp only [insertNode]
      split
      · intro h
        simpa using h
      · intro h
        rcases List.mem_cons.mp h with h | h
        · exact Or.inr (h ▸ List.mem_cons_self d ds)
        · rcases ih h with h | h
          · exact Or.inl h
          · exact Or.inr (List.mem_cons_of_mem d h)

theorem mem_sortNodes {x : FSNode} : ∀ {l : List FSNode},
    x ∈ sortNodes l → x ∈ l := by
  intro l
  induction l with
  | nil => simp [sortNodes]
  | cons c cs ih =>
      intro h
      rcases mem_insertNode h with h | h
      · exact h ▸ List.mem_cons_self c cs
      · exact List.mem_cons_of_mem c (ih h)

theorem sizeOf_insertNode (c : FSNode) : ∀ l : List FSNode,
    sizeOf (insertNode c l) = sizeOf (c :: l) := by
  intro l
  induction l with
  | nil => rfl
  | cons d ds ih =>
      simp only [insertNode]
      split
      · rfl
      · simp only [List.cons.sizeOf_spec, ih]
        omega

theorem sizeOf_sortNodes : ∀ l : List FSNode,
    sizeOf (sortNodes l) = sizeOf l := by
  intro l
  induction l with
  | nil => rfl
  | cons c cs ih =>
      simp only [sortNodes, sizeOf_insertNode, List.cons.sizeOf_spec, ih]

theorem sizeOf_lt_of_mem_children {c : FSNode} {n : String}
    {cs : List FSNode} (h : c ∈ cs) :
    sizeOf c < sizeOf (FSNode.dir n cs) := by
  have h1 := List.sizeOf_lt_of_mem h
  simp only [FSNode.dir.sizeOf_spec]
  omega

mutual

/-- Embedding of the `filepath.Walk` traversal used by both archive writers:
the list of visited entries in visit order, each as the relative path from
the walk root (as components; `[]` stands for the root's `"."`) paired with
the node.  The root is visited first; a directory's children follow in name
order, each subtree depth-first. -/
def walk : FSNode → List (List String × FSNode)
  | FSNode.file n r c => [([], FSNode.file n r c)]
  | FSNode.dir n cs => ([], FSNode.dir n cs) :: walkList (sortNodes cs)
termination_by t => sizeOf t
decreasing_by
  simp only [sizeOf_sortNodes, FSNode.dir.sizeOf_spec]
  omega

/-- Walk of a list of sibling subtrees: each child's entries get the child's
name prepended to their relative paths. -/
def walkList : List FSNode → List (List String × FSNode)
  | [] => []
  | c :: rest =>
      (walk c).map (fun pr => (FSNode.name c :: pr.1, pr.2)) ++ walkList rest
termination_by l => sizeOf l
decreasing_by
  · simp only [List.cons.sizeOf_spec]
    omega
  · simp only [List.cons.sizeOf_spec]
    omega

end

mutual

/-- Whether every file in the tree can be opened (no error on any
`os.Open` during the walk callbacks). -/
def allReadable : FSNode → Bool
  | FSNode.file _ r _ => r
  | FSNode.dir _ cs => allReadableList cs

/-- List form of `allReadable`. -/
def allReadableList : List FSNode → Bool
  | [] => true
  | c :: rest => allReadable c && allReadableList rest

end

mutual

/-- Whether the tree contains at least one file somewhere. -/
def containsFile : FSNode → Bool
  | FSNode.file _ _ _ => true
  | FSNode.dir _ cs => containsFileList cs

/-- List form of `containsFile`. -/
def containsFileList : List FSNode → Bool
  | [] => false
  | c :: rest => containsFile c || containsFileList rest

end

/-- Whether the served directory has a file directly at its top level. -/
def hasTopLevelFile : FSNode → Bool
  | FSNode.file _ _ _ => false
  | FSNode.dir _ cs => cs.any (fun c => !c.isDir)

/-- Whether the served directory has a file inside a nested
subdirectory. -/
def hasNestedFile : FSNode → Bool
  | FSNode.file _ _ _ => false
  | FSNode.dir _ cs =>
      cs.any (fun c =>
        match c with
        | FSNode.file _ _ _ => false
        | FSNode.dir _ ds => containsFileList ds)

/-- Embedding of `filepath.Join(baseDir, relPath)` on a relative path given
as components (`[]` is `"."`, which `Clean` collapses away). -/
def joinPath (base : String) : List String → String
  | [] => base
  | comp :: rest => joinPath (base ++ "/" ++ comp) rest

/-- Tar header type flag set by `tar.FileInfoHeader` from `info.IsDir()`. -/
inductive TarTypeflag where
  | TypeReg
  | TypeDir
  deriving Repr, DecidableEq

/-- One entry of the tar stream: the adjusted `header.Name`, the type flag,
and the bytes copied after the header (empty for directories). -/
structure TarEntry where
  name : String
  typeflag : TarTypeflag
  content : List Nat
  deriving Repr, DecidableEq

/-- Body of the walk callback in `writeTarArchive` (userve.go lines
581-618) for one visited entry: build the header from the file info, adjust
its name to `Join(baseDir, relPath)`, and for files open and copy the
contents; an unopenable file aborts the walk with the open error. -/
def tarWalkStep (baseDir : String) (pr : List String × FSNode) :
    Except String TarEntry :=
  match pr.2 with
  | FSNode.dir _ _ =>
      Except.ok ⟨joinPath baseDir pr.1, TarTypeflag.TypeDir, []⟩
  | FSNode.file _ readable content =>
      if readable then
        Except.ok ⟨joinPath baseDir pr.1, TarTypeflag.TypeReg, content⟩
      else Except.error "open"

/-- Entry produced by the tar walk callback when no error occurs. -/
def tarEntryPure (baseDir : String) (pr : List String × FSNode) : TarEntry :=
  match pr.2 with
  | FSNode.dir _ _ => ⟨joinPath baseDir pr.1, TarTypeflag.TypeDir, []⟩
  | FSNode.file _ _ content =>
      ⟨joinPath baseDir pr.1, TarTypeflag.TypeReg, content⟩

/-- Observable operations of `writeTarArchive` on its writers: a header
(plus contents) written through the tar writer, and the two deferred
finalizations. -/
inductive TarEvent where
  | header (e : TarEntry)
  | tarClose
  | gzipClose
  deriving Repr, DecidableEq

/-- Events of the walk loop of `writeTarArchive`: entries are emitted in
visit order until the first callback error, which aborts the walk and
becomes the walk's result. -/
def tarWalkEvents (baseDir : String) :
    List (List String × FSNode) → List TarEvent × Except String Unit
  | [] => ([], Except.ok ())
  | pr :: rest =>
      match tarWalkStep baseDir pr with
      | Except.error e => ([], Except.error e)
      | Except.ok entry =>
          let r := tarWalkEvents baseDir rest
          (TarEvent.header entry :: r.1, r.2)

/-- Push onto the deferred-call stack; Go runs deferred calls in LIFO
order, so the head of the stack runs first. -/
def pushDefer (ev : TarEvent) (stack : List TarEvent) : List TarEvent :=
  ev :: stack

/-- Embedding of `archiveProvider.writeTarArchive` (userve.go lines
562-619).  The format switch registers `defer gw.Close()` (gzip) and then
`defer tw.Close()` (tar) for the gzip-wrapped formats - the Go `default`
arm, reachable only for `ArchiveZip`, also wraps in gzip - so the deferred
stack runs the tar finalization before the gzip one on every return path.
The parameter `t` is the filesystem subtree at `p.dirPath`.  Returns the
full event trace on the writers and the walk's result. -/
def archiveProvider.writeTarArchive (p : archiveProvider) (t : FSNode) :
    List TarEvent × Except String Unit :=
  let defers :=
    match p.format with
    | ArchiveFormat.ArchiveTarGz =>
        pushDefer TarEvent.tarClose (pushDefer TarEvent.gzipClose [])
    | ArchiveFormat.ArchiveTar => pushDefer TarEvent.tarClose []
    | ArchiveFormat.ArchiveZip =>
        pushDefer TarEvent.tarClose (pushDefer TarEvent.gzipClose [])
  let baseDir := filepath.Base p.dirPath
  let r := tarWalkEvents baseDir (walk t)
  (r.1 ++ defers, r.2)

/-- Entry list of the tar stream when the walk succeeded, or the walk's
error. -/
def tarEntriesOf (r : List TarEvent × Except String Unit) :
    Except String (List TarEntry) :=
  match r.2 with
  | Except.error e => Except.error e
  | Except.ok _ =>
      Except.ok (r.1.filterMap (fun ev =>
        match ev with
        | TarEvent.header e => some e
        | _ => none))

/-- Listing recovered by fully decoding a tar stream: each header's name,
paired with the copied bytes for regular entries and nothing for directory
entries.  The byte-level tar (and gzip) encode/decode round trip is the
external codec collaborator. -/
def tarDecodedListing (es : List TarEntry) :
    List (String × Option (List Nat)) :=
  es.map (fun e =>
    (e.name,
      match e.typeflag with
      | TarTypeflag.TypeDir => none
      | TarTypeflag.TypeReg => some e.content))

/-- Zip compression method: `zip.FileInfoHeader` leaves the zero value
(Store); the writer sets Deflate on file entries. -/
inductive ZipMethod where
  | Store
  | Deflate
  deriving Repr, DecidableEq

/-- One entry of the zip stream: the adjusted `header.Name` (with the
trailing separator for directories), the compression method, and the file
bytes copied into the entry writer. -/
structure ZipEntry where
  name : String
  method : ZipMethod
  content : List Nat
  deriving Repr, DecidableEq

/-- Body of the walk callback in `writeZipArchive` (userve.go lines
627-672) for one visited entry: build the header, adjust its name to
`Join(baseDir, relPath)`, append `"/"` for directories or set the Deflate
method for files, then copy file contents; an unopenable file aborts the
walk with the open error. -/
def zipWalkStep (baseDir : String) (pr : List String × FSNode) :
    Except String ZipEntry :=
  match pr.2 with
  | FSNode.dir _ _ =>
      Except.ok ⟨joinPath baseDir pr.1 ++ "/", ZipMethod.Store, []⟩
  | FSNode.file _ readable content =>
      if readable then
        Except.ok ⟨joinPath baseDir pr.1, ZipMethod.Deflate, content⟩
      else Except.error "open"

/-- Entry produced by the zip walk callback when no error occurs. -/
def zipEntryPure (baseDir : String) (pr : List String × FSNode) : ZipEntry :=
  match pr.2 with
  | FSNode.dir _ _ => ⟨joinPath baseDir pr.1 ++ "/", ZipMethod.Store, []⟩
  | FSNode.file _ _ content =>
      ⟨joinPath baseDir pr.1, ZipMethod.Deflate, content⟩

/-- Embedding of `archiveProvider.writeZipArchive` (userve.go lines
621-673): the walk maps each visited entry through the callback, aborting
at the first error.  The parameter `t` is the filesystem subtree at
`p.dirPath`. -/
def archiveProvider.writeZipArchive (p : archiveProvider) (t : FSNode) :
    Except String (List ZipEntry) :=
  (walk t).mapM (zipWalkStep (filepath.Base p.dirPath))

/-- Embedding of `archiveProvider.WriteTo` (userve.go lines 555-560),
returned as the entry-level stream it hands to the codecs. -/
def archiveProvider.WriteTo (p : archiveProvider) (t : FSNode) :
    Except String Unit :=
  match p.format with
  | ArchiveFormat.ArchiveZip =>
      match p.writeZipArchive t with
      | Except.error e => Except.error e
      | Except.ok _ => Except.ok ()
  | _ => (p.writeTarArchive t).2

mutual

/-- Listing the specification's round-trip property expects from the
decoded archive: one entry per node of the tree, its path being the
relative path prefixed with the prefix string (initially the directory's
display name), directories with no contents and files with their exact
bytes, children in name order. -/
def specList (pre : String) : FSNode → List (String × Option (List Nat))
  | FSNode.file _ _ content => [(pre, some content)]
  | FSNode.dir _ cs => (pre, none) :: specListChildren pre (sortNodes cs)
termination_by t => sizeOf t
decreasing_by
  simp only [sizeOf_sortNodes, FSNode.dir.sizeOf_spec]
  omega

/-- Expected listing of a list of sibling subtrees. -/
def specListChildren (pre : String) :
    List FSNode → List (String × Option (List Nat))
  | [] => []
  | c :: rest =>
      specList (pre ++ "/" ++ FSNode.name c) c ++ specListChildren pre rest
termination_by l => sizeOf l
decreasing_by
  · simp only [List.cons.sizeOf_spec]
    omega
  · simp only [List.cons.sizeOf_spec]
    omega

end

/-- Whether a trace event is a response-header write. -/
def isSetHeaderEv : HEvent → Bool
  | HEvent.setHeader _ _ => true
  | _ => false

/-- Contents a decoded listing reports for a node: the bytes of a file,
nothing for a directory. -/
def nodeContent : FSNode → Option (List Nat)
  | FSNode.file _ _ c => some c
  | FSNode.dir _ _ => none

/-- Whether the walk callback can process the node without an open error
(directories never open; files need their readable flag). -/
def nodeReadable : FSNode → Bool
  | FSNode.file _ r _ => r
  | FSNode.dir _ _ => true

/-- Listing recovered by fully decoding a zip stream: each entry's name
(directories keep the slash-marked name the writer gave them) paired with
the entry bytes for Deflate (file) entries and nothing for Store
(directory) entries.  The byte-level zip encode/decode round trip is the
external codec collaborator. -/
def zipDecodedListing (es : List ZipEntry) :
    List (String × Option (List Nat)) :=
  es.map (fun e =>
    (e.name,
      match e.method with
      | ZipMethod.Store => none
      | ZipMethod.Deflate => some e.content))

/-! Lemmas about the lifecycle controller. -/

theorem wrap32_eq {z : Int} (h1 : -2147483648 ≤ z) (h2 : z < 2147483648) :
    wrap32 z = z := by
  unfold wrap32
  rw [Int.emod_eq_of_lt (by omega) (by omega)]
  omega

theorem ServeHTTP_ok_state (tbe : String → String) (h : handler)
    (u : Unit) (s : LifecycleState) :
    (h.ServeHTTP tbe (Except.ok u) s).2 = (recordCompletion h.maxDownloads s).2 :=
  rfl

theorem recordCompletion_step (M : Int) (s : LifecycleState) (hM : ¬(M = 0))
    (hc1 : -2147483648 ≤ s.downloadCount + 1)
    (hc2 : s.downloadCount + 1 < 2147483648)
    (hr1 : -2147483648 ≤ M - (s.downloadCount + 1))
    (hr2 : M - (s.downloadCount + 1) < 2147483648) :
    (recordCompletion M s).2 =
      if M - (s.downloadCount + 1) > 0 then
        { s with downloadCount := s.downloadCount + 1 }
      else raiseShutdown { s with downloadCount := s.downloadCount + 1 } := by
  unfold recordCompletion
  simp only [wrap32_eq hc1 hc2, wrap32_eq hr1 hr2, if_neg hM]
  split <;> rfl

theorem recordCompletion_raised (M : Int) (s : LifecycleState)
    (h : s.signalRaised = true) :
    (recordCompletion M s).2.signalRaised = true ∧
      (recordCompletion M s).2.raiseCount = s.raiseCount := by
  by_cases h0 : M = 0
  · unfold recordCompletion
    simp [h0, h]
  · by_cases hrem : wrap32 (M - wrap32 (s.downloadCount + 1)) > 0
    · unfold recordCompletion
      simp [h0, hrem, h]
    · unfold recordCompletion raiseShutdown
      simp [h0, hrem, h]

theorem iterServe_below (tbe : String → String) (h : handler)
    (hM : 0 < h.maxDownloads) (hM31 : h.maxDownloads < 2147483648) :
    ∀ k : Nat, (k : Int) < h.maxDownloads →
      iterServe tbe h k =
        { downloadCount := (k : Int), signalRaised := false, raiseCount := 0 } := by
  intro k
  induction k with
  | zero => intro _; rfl
  | succ k ih =>
      intro hk
      have hk' : (k : Int) < h.maxDownloads := by push_cast at hk ⊢; omega
      have hcast : ((k + 1 : Nat) : Int) = (k : Int) + 1 := by push_cast; ring
      simp only [iterServe, ServeHTTP_ok_state, ih hk']
      rw [recordCompletion_step h.maxDownloads _ (by omega) (by simp; omega)
        (by simp; push_cast at hk; omega) (by simp; omega) (by simp; omega)]
      simp only [if_pos (by simp; push_cast at hk; omega :
        h.maxDownloads - ((k : Int) + 1) > 0)]
      simp [hcast]

theorem iterServe_at_limit (tbe : String → String) (h : handler)
    (hM : 0 < h.maxDownloads) (hM31 : h.maxDownloads < 2147483648) :
    iterServe tbe h h.maxDownloads.toNat =
      { downloadCount := h.maxDownloads, signalRaised := true, raiseCount := 1 } := by
  obtain ⟨k, hk⟩ : ∃ k, h.maxDownloads.toNat = k + 1 :=
    ⟨h.maxDownloads.toNat - 1, by omega⟩
  have hkM : (k : Int) = h.maxDownloads - 1 := by omega
  rw [hk]
  simp only [iterServe, ServeHTTP_ok_state,
    iterServe_below tbe h hM hM31 k (by omega)]
  rw [recordCompletion_step h.maxDownloads _ (by omega) (by simp; omega)
    (by simp; omega) (by simp; omega) (by simp; omega)]
  rw [if_neg (by simp; omega : ¬(h.maxDownloads - ((k : Int) + 1) > 0))]
  unfold raiseShutdown
  simp only [if_neg (by simp : ¬(false = true))]
  have : (k : Int) + 1 = h.maxDownloads := by omega
  simp [this]

theorem iterServe_after (tbe : String → String) (h : handler)
    (hM : 0 < h.maxDownloads) (hM31 : h.maxDownloads < 2147483648) :
    ∀ d : Nat,
      (iterServe tbe h (h.maxDownloads.toNat + d)).signalRaised = true ∧
        (iterServe tbe h (h.maxDownloads.toNat + d)).raiseCount = 1 := by
  intro d
  induction d with
  | zero =>
      rw [Nat.add_zero, iterServe_at_limit tbe h hM hM31]
      exact ⟨rfl, rfl⟩
  | succ d ih =>
      rw [Nat.add_succ]
      simp only [iterServe, ServeHTTP_ok_state]
      have hr := recordCompletion_raised h.maxDownloads _ ih.1
      exact ⟨hr.1, hr.2.trans ih.2⟩

/-- C1: for every configured limit M > 0 (an `int32` value), running
successful transfers sequentially raises the one-shot shutdown signal
exactly when the post-increment completed count reaches or crosses M: after
fewer than M completions the signal has never been raised, and after M or
more completions it has been raised exactly once (later raise attempts find
the channel full and are no-ops). -/
theorem shutdown_fires_exactly_at_limit (tbe : String → String) (h : handler)
    (hM : 0 < h.maxDownloads) (hM31 : h.maxDownloads < 2147483648) (k : Nat) :
    ((iterServe tbe h k).raiseCount =
      if (k : Int) < h.maxDownloads then 0 else 1) ∧
    ((iterServe tbe h k).signalRaised = true ↔ h.maxDownloads ≤ (k : Int)) := by
  by_cases hk : (k : Int) < h.maxDownloads
  · rw [iterServe_below tbe h hM hM31 k hk, if_pos hk]
    exact ⟨rfl, by simp; omega⟩
  · obtain ⟨d, rfl⟩ : ∃ d, k = h.maxDownloads.toNat + d :=
      ⟨k - h.maxDownloads.toNat, by omega⟩
    have ha := iterServe_after tbe h hM hM31 d
    rw [if_neg hk]
    exact ⟨ha.2, by simp [ha.1]; omega⟩

/-- Witness for C1 at limit 3: the spec's concrete scenario C (no raise
after 2 completions, raised once after 3). -/
theorem shutdown_fires_exactly_at_limit_witness :
    (((iterServe (fun _ => "")
        ⟨contentProvider.file ⟨"/tmp/f", "f.txt", 13⟩, 3⟩ 3).raiseCount =
      if ((3 : Nat) : Int) < (3 : Int) then 0 else 1) ∧
    ((iterServe (fun _ => "")
        ⟨contentProvider.file ⟨"/tmp/f", "f.txt", 13⟩, 3⟩ 3).signalRaised = true ↔
      (3 : Int) ≤ ((3 : Nat) : Int))) ∧
    (((iterServe (fun _ => "")
        ⟨contentProvider.file ⟨"/tmp/f", "f.txt", 13⟩, 3⟩ 2).raiseCount =
      if ((2 : Nat) : Int) < (3 : Int) then 0 else 1) ∧
    ((iterServe (fun _ => "")
        ⟨contentProvider.file ⟨"/tmp/f", "f.txt", 13⟩, 3⟩ 2).signalRaised = true ↔
      (3 : Int) ≤ ((2 : Nat) : Int))) :=
  ⟨shutdown_fires_exactly_at_limit (fun _ => "")
      ⟨contentProvider.file ⟨"/tmp/f", "f.txt", 13⟩, 3⟩ (by decide) (by decide) 3,
   shutdown_fires_exactly_at_limit (fun _ => "")
      ⟨contentProvider.file ⟨"/tmp/f", "f.txt", 13⟩, 3⟩ (by decide) (by decide) 2⟩

/-- C2: a transfer whose `WriteTo` returns an error leaves the lifecycle
state untouched (counter not incremented, signal not raised, for every
limit), and the handler logs the interruption. -/
theorem failed_transfer_not_counted (tbe : String → String) (h : handler)
    (e : String) (s : LifecycleState) :
    (h.ServeHTTP tbe (Except.error e) s).2 = s ∧
    HEvent.logInterrupted e ∈ (h.ServeHTTP tbe (Except.error e) s).1 := by
  refine ⟨rfl, ?_⟩
  simp [handler.ServeHTTP]

/-- C3: in unlimited mode (limit 0) no number of successful completions
ever raises the shutdown signal. -/
theorem unlimited_mode_never_raises (tbe : String → String) (h : handler)
    (h0 : h.maxDownloads = 0) (k : Nat) :
    (iterServe tbe h k).signalRaised = false ∧
      (iterServe tbe h k).raiseCount = 0 := by
  induction k with
  | zero => exact ⟨rfl, rfl⟩
  | succ k ih =>
      simp only [iterServe, ServeHTTP_ok_state]
      unfold recordCompletion
      simp only [h0, if_pos]
      exact ⟨ih.1, ih.2⟩

/-- Witness for C3: the spec's concrete scenario D, five completions with
limit 0. -/
theorem unlimited_mode_never_raises_witness :
    (iterServe (fun _ => "")
        ⟨contentProvider.file ⟨"/tmp/f", "f.txt", 13⟩, 0⟩ 5).signalRaised = false ∧
    (iterServe (fun _ => "")
        ⟨contentProvider.file ⟨"/tmp/f", "f.txt", 13⟩, 0⟩ 5).raiseCount = 0 :=
  unlimited_mode_never_raises (fun _ => "")
    ⟨contentProvider.file ⟨"/tmp/f", "f.txt", 13⟩, 0⟩ rfl 5

/-! Lemmas about the handler's event trace. -/

theorem headerEvents_only_setHeader (tbe : String → String)
    (p : contentProvider) :
    ∀ ev ∈ headerEvents tbe p, ∃ n v, ev = HEvent.setHeader n v := by
  intro ev hev
  unfold headerEvents at hev
  rcases List.mem_append.mp hev with hev | hev
  · simp only [List.mem_cons, List.mem_singleton] at hev
    rcases hev with rfl | hev
    · exact ⟨_, _, rfl⟩
    · rcases hev with rfl | hev
      · exact ⟨_, _, rfl⟩
      · simp at hev
  · split at hev
    · simp only [List.mem_singleton] at hev
      exact ⟨_, _, hev⟩
    · simp at hev

theorem recordCompletion_events (M : Int) (s : LifecycleState) :
    (recordCompletion M s).1 = [] ∨
      ∃ r, (recordCompletion M s).1 = [HEvent.logRemaining r] := by
  by_cases h0 : M = 0
  · left
    unfold recordCompletion
    simp [h0]
  · by_cases hrem : wrap32 (M - wrap32 (s.downloadCount + 1)) > 0
    · right
      refine ⟨wrap32 (M - wrap32 (s.downloadCount + 1)), ?_⟩
      unfold recordCompletion
      simp [h0, hrem]
    · left
      unfold recordCompletion
      simp [h0, hrem]

theorem trace_shape (tbe : String → String) (h : handler)
    (wr : Except String Unit) (s : LifecycleState) :
    ∃ mid,
      (h.ServeHTTP tbe wr s).1 =
        HEvent.incActive :: mid ++ [HEvent.decActive] ∧
      (∀ ev ∈ mid, ev ≠ HEvent.incActive ∧ ev ≠ HEvent.decActive) := by
  cases wr with
  | error e =>
      refine ⟨HEvent.logStart :: headerEvents tbe h.provider ++
        [HEvent.logInterrupted e], by simp [handler.ServeHTTP], ?_⟩
      intro ev hev
      rcases List.mem_cons.mp hev with rfl | hev
      · simp
      rcases List.mem_append.mp hev with hev | hev
      · obtain ⟨n, v, rfl⟩ := headerEvents_only_setHeader tbe h.provider ev hev
        simp
      · simp only [List.mem_singleton] at hev
        subst hev
        simp
  | ok u =>
      refine ⟨HEvent.logStart :: headerEvents tbe h.provider ++
        HEvent.logCompleted :: (recordCompletion h.maxDownloads s).1,
        by simp [handler.ServeHTTP], ?_⟩
      intro ev hev
      rcases List.mem_cons.mp hev with rfl | hev
      · simp
      rcases List.mem_append.mp hev with hev | hev
      · obtain ⟨n, v, rfl⟩ := headerEvents_only_setHeader tbe h.provider ev hev
        simp
      · rcases List.mem_cons.mp hev with rfl | hev
        · simp
        · rcases recordCompletion_events h.maxDownloads s with hrc | ⟨r, hrc⟩ <;>
            rw [hrc] at hev
          · simp at hev
          · simp only [List.mem_singleton] at hev
            subst hev
            simp

theorem runActive_eq (l : List HEvent) : ∀ c : Int,
    runActive c l =
      c + (l.count HEvent.incActive : Int) - (l.count HEvent.decActive : Int) := by
  induction l with
  | nil => intro c; simp [runActive]
  | cons e l ih =>
      intro c
      cases e <;> simp [runActive, List.count_cons, ih] <;> omega

theorem runActive_take_nonneg (c : Int) (hc : 0 ≤ c) (mid : List HEvent)
    (h : ∀ ev ∈ mid, ev ≠ HEvent.incActive ∧ ev ≠ HEvent.decActive) :
    ∀ n, 0 ≤ runActive c
      ((HEvent.incActive :: mid ++ [HEvent.decActive]).take n) := by
  intro n
  cases n with
  | zero => simpa [runActive] using hc
  | succ n =>
      rw [show List.take (n + 1) (HEvent.incActive :: mid ++ [HEvent.decActive]) =
        HEvent.incActive :: List.take n (mid ++ [HEvent.decActive]) from rfl]
      have h1 : runActive c
          (HEvent.incActive :: (mid ++ [HEvent.decActive]).take n) =
          runActive (c + 1) ((mid ++ [HEvent.decActive]).take n) := rfl
      rw [h1, runActive_eq]
      have hdec : ((mid ++ [HEvent.decActive]).take n).count HEvent.decActive ≤
          (mid ++ [HEvent.decActive]).count HEvent.decActive :=
        (List.take_sublist n _).count_le _
      have hdec2 : (mid ++ [HEvent.decActive]).count HEvent.decActive = 1 := by
        rw [List.count_append]
        have h0 : mid.count HEvent.decActive = 0 :=
          List.count_eq_zero.mpr (fun hm => (h _ hm).2 rfl)
        simp [h0]
      omega

/-- C9: on every request, the first event of the handler trace is the
active-count increment (so it precedes every header write), the trace ends
with exactly one matching decrement on every exit path (success or
`WriteTo` error), and starting from any non-negative count the running
count stays non-negative throughout and returns to its initial value. -/
theorem active_transfer_invariant (tbe : String → String) (h : handler)
    (wr : Except String Unit) (s : LifecycleState) (c : Int) (hc : 0 ≤ c) :
    ((h.ServeHTTP tbe wr s).1.head? = some HEvent.incActive) ∧
    ((h.ServeHTTP tbe wr s).1.getLast? = some HEvent.decActive) ∧
    ((h.ServeHTTP tbe wr s).1.count HEvent.incActive = 1) ∧
    ((h.ServeHTTP tbe wr s).1.count HEvent.decActive = 1) ∧
    (∀ n, 0 ≤ runActive c ((h.ServeHTTP tbe wr s).1.take n)) ∧
    (runActive c (h.ServeHTTP tbe wr s).1 = c) := by
  obtain ⟨mid, heq, hmid⟩ := trace_shape tbe h wr s
  rw [heq]
  have hinc0 : mid.count HEvent.incActive = 0 :=
    List.count_eq_zero.mpr (fun hm => (hmid _ hm).1 rfl)
  have hdec0 : mid.count HEvent.decActive = 0 :=
    List.count_eq_zero.mpr (fun hm => (hmid _ hm).2 rfl)
  refine ⟨rfl, ?_, ?_, ?_, ?_, ?_⟩
  · rw [show HEvent.incActive :: mid ++ [HEvent.decActive] =
      (HEvent.incActive :: mid) ++ [HEvent.decActive] from rfl]
    exact List.getLast?_concat _
  · simp [List.count_cons, List.count_append, hinc0]
  · simp [List.count_cons, List.count_append, hdec0]
  · exact runActive_take_nonneg c hc mid hmid
  · rw [runActive_eq]
    simp [List.count_cons, List.count_append, hinc0, hdec0]

/-- Witness for C9 at a concrete request: successful transfer of a file
with limit 1, active count starting at 0. -/
theorem active_transfer_invariant_witness :
    ((handler.ServeHTTP (fun _ => "")
        ⟨contentProvider.file ⟨"/tmp/f", "f.txt", 13⟩, 1⟩
        (Except.ok ()) initState).1.head? = some HEvent.incActive) ∧
    ((handler.ServeHTTP (fun _ => "")
        ⟨contentProvider.file ⟨"/tmp/f", "f.txt", 13⟩, 1⟩
        (Except.ok ()) initState).1.getLast? = some HEvent.decActive) ∧
    ((handler.ServeHTTP (fun _ => "")
        ⟨contentProvider.file ⟨"/tmp/f", "f.txt", 13⟩, 1⟩
        (Except.ok ()) initState).1.count HEvent.incActive = 1) ∧
    ((handler.ServeHTTP (fun _ => "")
        ⟨contentProvider.file ⟨"/tmp/f", "f.txt", 13⟩, 1⟩
        (Except.ok ()) initState).1.count HEvent.decActive = 1) ∧
    (∀ n, 0 ≤ runActive 0 ((handler.ServeHTTP (fun _ => "")
        ⟨contentProvider.file ⟨"/tmp/f", "f.txt", 13⟩, 1⟩
        (Except.ok ()) initState).1.take n)) ∧
    (runActive 0 (handler.ServeHTTP (fun _ => "")
        ⟨contentProvider.file ⟨"/tmp/f", "f.txt", 13⟩, 1⟩
        (Except.ok ()) initState).1 = 0) :=
  active_transfer_invariant (fun _ => "")
    ⟨contentProvider.file ⟨"/tmp/f", "f.txt", 13⟩, 1⟩
    (Except.ok ()) initState 0 (by decide)

/-- C6: on every request the headers written are exactly: Content-Type from
the provider (for files the extension lookup with the octet-stream
fallback, for archives the fixed type of the archive kind), the attachment
Content-Disposition carrying the provider's filename, and Content-Length
equal to the file size for the file variant but absent for the archive
variant (declared length -1). -/
theorem response_metadata (tbe : String → String) (maxD : Int)
    (wr : Except String Unit) (s : LifecycleState)
    (fp : fileProvider) (ap : archiveProvider) (hsz : 0 ≤ fp.fileSize) :
    ((handler.ServeHTTP tbe ⟨contentProvider.file fp, maxD⟩ wr s).1.filter
        isSetHeaderEv =
      [HEvent.setHeader "Content-Type"
         (if tbe (filepath.Ext fp.fileName) = "" then
            "application/octet-stream"
          else tbe (filepath.Ext fp.fileName)),
       HEvent.setHeader "Content-Disposition"
         ("attachment; filename=" ++ goQuote fp.fileName),
       HEvent.setHeader "Content-Length" (toString fp.fileSize)]) ∧
    ((handler.ServeHTTP tbe ⟨contentProvider.archive ap, maxD⟩ wr s).1.filter
        isSetHeaderEv =
      [HEvent.setHeader "Content-Type"
         (match ap.format with
          | ArchiveFormat.ArchiveTarGz => "application/gzip"
          | ArchiveFormat.ArchiveZip => "application/zip"
          | ArchiveFormat.ArchiveTar => "application/x-tar"),
       HEvent.setHeader "Content-Disposition"
         ("attachment; filename=" ++ goQuote ap.Filename)]) ∧
    (∀ v, HEvent.setHeader "Content-Length" v ∉
      (handler.ServeHTTP tbe ⟨contentProvider.archive ap, maxD⟩ wr s).1) := by
  have hrc : ((recordCompletion maxD s).1.filter isSetHeaderEv) = [] := by
    rcases recordCompletion_events maxD s with hrc | ⟨r, hrc⟩ <;>
      simp [hrc, isSetHeaderEv]
  have hfile : (handler.ServeHTTP tbe ⟨contentProvider.file fp, maxD⟩
      wr s).1.filter isSetHeaderEv =
      [HEvent.setHeader "Content-Type"
         (fileProvider.ContentType tbe fp),
       HEvent.setHeader "Content-Disposition"
         ("attachment; filename=" ++ goQuote fp.fileName),
       HEvent.setHeader "Content-Length" (toString fp.fileSize)] := by
    cases wr <;>
      simp [handler.ServeHTTP, headerEvents, contentProvider.ContentType,
        contentProvider.ContentLength, contentProvider.Filename,
        fileProvider.ContentLength, fileProvider.Filename,
        List.filter_append, isSetHeaderEv, hsz, hrc]
  have harch : (handler.ServeHTTP tbe ⟨contentProvider.archive ap, maxD⟩
      wr s).1.filter isSetHeaderEv =
      [HEvent.setHeader "Content-Type" ap.ContentType,
       HEvent.setHeader "Content-Disposition"
         ("attachment; filename=" ++ goQuote ap.Filename)] := by
    have hneg : ¬(contentProvider.ContentLength
        (contentProvider.archive ap) ≥ 0) := by
      simp [contentProvider.ContentLength, archiveProvider.ContentLength]
    cases wr <;>
      simp [handler.ServeHTTP, headerEvents, contentProvider.ContentType,
        contentProvider.Filename, hneg,
        List.filter_append, isSetHeaderEv, hrc]
  refine ⟨?_, ?_, ?_⟩
  · rw [hfile]
    simp [fileProvider.ContentType]
  · rw [harch]
    simp [archiveProvider.ContentType]
  · intro v hmem
    have hf : HEvent.setHeader "Content-Length" v ∈
        (handler.ServeHTTP tbe ⟨contentProvider.archive ap, maxD⟩
          wr s).1.filter isSetHeaderEv :=
      List.mem_filter.mpr ⟨hmem, rfl⟩
    rw [harch] at hf
    simp only [List.mem_cons, List.mem_singleton] at hf
    rcases hf with hf | hf <;> simp at hf

/-- Witness for C6 at a 13-byte text file and a tar.gz archive provider. -/
theorem response_metadata_witness :
    ((handler.ServeHTTP (fun _ => "text/plain")
        ⟨contentProvider.file ⟨"/tmp/f", "f.txt", 13⟩, 1⟩
        (Except.ok ()) initState).1.filter isSetHeaderEv =
      [HEvent.setHeader "Content-Type"
         (if (fun _ => "text/plain") (filepath.Ext "f.txt") = "" then
            "application/octet-stream"
          else (fun _ => "text/plain") (filepath.Ext "f.txt")),
       HEvent.setHeader "Content-Disposition"
         ("attachment; filename=" ++ goQuote "f.txt"),
       HEvent.setHeader "Content-Length" (toString (13 : Int))]) ∧
    ((handler.ServeHTTP (fun _ => "text/plain")
        ⟨contentProvider.archive ⟨"/tmp/testdir", "testdir",
          ArchiveFormat.ArchiveTarGz⟩, 1⟩
        (Except.ok ()) initState).1.filter isSetHeaderEv =
      [HEvent.setHeader "Content-Type"
         (match (⟨"/tmp/testdir", "testdir",
            ArchiveFormat.ArchiveTarGz⟩ : archiveProvider).format with
          | ArchiveFormat.ArchiveTarGz => "application/gzip"
          | ArchiveFormat.ArchiveZip => "application/zip"
          | ArchiveFormat.ArchiveTar => "application/x-tar"),
       HEvent.setHeader "Content-Disposition"
         ("attachment; filename=" ++ goQuote
           (archiveProvider.Filename ⟨"/tmp/testdir", "testdir",
             ArchiveFormat.ArchiveTarGz⟩))]) ∧
    (∀ v, HEvent.setHeader "Content-Length" v ∉
      (handler.ServeHTTP (fun _ => "text/plain")
        ⟨contentProvider.archive ⟨"/tmp/testdir", "testdir",
          ArchiveFormat.ArchiveTarGz⟩, 1⟩
        (Except.ok ()) initState).1) :=
  response_metadata (fun _ => "text/plain") 1 (Except.ok ()) initState
    ⟨"/tmp/f", "f.txt", 13⟩
    ⟨"/tmp/testdir", "testdir", ArchiveFormat.ArchiveTarGz⟩ (by decide)

/-! Lemmas about the tar writer's event trace. -/

theorem tarWalkEvents_only_headers (b : String) :
    ∀ l, ∀ ev ∈ (tarWalkEvents b l).1, ∃ e, ev = TarEvent.header e := by
  intro l
  induction l with
  | nil => simp [tarWalkEvents]
  | cons pr rest ih =>
      intro ev hev
      unfold tarWalkEvents at hev
      split at hev
      · simp at hev
      · rcases List.mem_cons.mp hev with rfl | hev
        · exact ⟨_, rfl⟩
        · exact ih ev hev

/-- C7: for the tar+gzip kind, on every return path of `writeTarArchive`
(error paths included) the trace ends with the tar finalization immediately
followed by the gzip finalization, and neither finalization occurs earlier
in the trace. -/
theorem targz_finalization_order (p : archiveProvider) (t : FSNode)
    (hfmt : p.format = ArchiveFormat.ArchiveTarGz) :
    ∃ body, (p.writeTarArchive t).1 =
        body ++ [TarEvent.tarClose, TarEvent.gzipClose] ∧
      TarEvent.tarClose ∉ body ∧ TarEvent.gzipClose ∉ body := by
  refine ⟨(tarWalkEvents (filepath.Base p.dirPath) (walk t)).1, ?_, ?_, ?_⟩
  · unfold archiveProvider.writeTarArchive
    rw [hfmt]
    rfl
  · intro hmem
    obtain ⟨e, he⟩ := tarWalkEvents_only_headers _ _ _ hmem
    simp at he
  · intro hmem
    obtain ⟨e, he⟩ := tarWalkEvents_only_headers _ _ _ hmem
    simp at he

/-- Witness for C7 on the scenario B tree. -/
theorem targz_finalization_order_witness :
    ∃ body, ((⟨"/tmp/testdir", "testdir",
        ArchiveFormat.ArchiveTarGz⟩ : archiveProvider).writeTarArchive
        (FSNode.dir "testdir"
          [FSNode.file "file1.txt" true [1, 2],
           FSNode.dir "subdir" [FSNode.file "file2.txt" true [3]]])).1 =
        body ++ [TarEvent.tarClose, TarEvent.gzipClose] ∧
      TarEvent.tarClose ∉ body ∧ TarEvent.gzipClose ∉ body :=
  targz_finalization_order
    ⟨"/tmp/testdir", "testdir", ArchiveFormat.ArchiveTarGz⟩
    (FSNode.dir "testdir"
      [FSNode.file "file1.txt" true [1, 2],
       FSNode.dir "subdir" [FSNode.file "file2.txt" true [3]]]) rfl

/-- C8: a per-transfer provider error is isolated: the handler logs the
interruption, its trace still ends with the active-count decrement (the
handler returns and the server keeps running), the lifecycle state is
untouched (the transfer does not count), a file `WriteTo` that fails at
`os.Open` has written zero bytes (so a clean error status is still
possible), while the tar archive writer has already emitted the root header
before any later traversal error can occur. -/
theorem provider_error_isolated (tbe : String → String) (h : handler)
    (e : String) (s : LifecycleState)
    (fb : String → Option (List Nat)) (fp : fileProvider)
    (hopen : fb fp.filePath = none)
    (p : archiveProvider) (n : String) (cs : List FSNode) :
    ((h.ServeHTTP tbe (Except.error e) s).2 = s) ∧
    (HEvent.logInterrupted e ∈ (h.ServeHTTP tbe (Except.error e) s).1) ∧
    ((h.ServeHTTP tbe (Except.error e) s).1.getLast? =
      some HEvent.decActive) ∧
    (fileProvider.WriteTo fb fp = (Except.error "open", [])) ∧
    ((p.writeTarArchive (FSNode.dir n cs)).1.head? =
      some (TarEvent.header
        ⟨filepath.Base p.dirPath, TarTypeflag.TypeDir, []⟩)) := by
  refine ⟨rfl, by simp [handler.ServeHTTP], ?_, ?_, ?_⟩
  · obtain ⟨mid, heq, _⟩ := trace_shape tbe h (Except.error e) s
    rw [heq]
    rw [show HEvent.incActive :: mid ++ [HEvent.decActive] =
      (HEvent.incActive :: mid) ++ [HEvent.decActive] from rfl]
    exact List.getLast?_concat _
  · unfold fileProvider.WriteTo
    rw [hopen]
  · unfold archiveProvider.writeTarArchive
    rw [walk]
    unfold tarWalkEvents
    simp [tarWalkStep, joinPath]

/-- Witness for C8: a file whose path cannot be opened, an error-path
request, and an archive provider over a directory. -/
theorem provider_error_isolated_witness :
    (((⟨contentProvider.file ⟨"/tmp/f", "f.txt", 13⟩, 1⟩ :
        handler).ServeHTTP (fun _ => "") (Except.error "peer")
        initState).2 = initState) ∧
    (HEvent.logInterrupted "peer" ∈
      ((⟨contentProvider.file ⟨"/tmp/f", "f.txt", 13⟩, 1⟩ :
        handler).ServeHTTP (fun _ => "") (Except.error "peer")
        initState).1) ∧
    (((⟨contentProvider.file ⟨"/tmp/f", "f.txt", 13⟩, 1⟩ :
        handler).ServeHTTP (fun _ => "") (Except.error "peer")
        initState).1.getLast? = some HEvent.decActive) ∧
    (fileProvider.WriteTo (fun _ => none) ⟨"/tmp/f", "f.txt", 13⟩ =
      (Except.error "open", [])) ∧
    (((⟨"/tmp/testdir", "testdir", ArchiveFormat.ArchiveTarGz⟩ :
        archiveProvider).writeTarArchive
        (FSNode.dir "testdir" [])).1.head? =
      some (TarEvent.header
        ⟨filepath.Base "/tmp/testdir", TarTypeflag.TypeDir, []⟩)) :=
  provider_error_isolated (fun _ => "")
    ⟨contentProvider.file ⟨"/tmp/f", "f.txt", 13⟩, 1⟩ "peer" initState
    (fun _ => none) ⟨"/tmp/f", "f.txt", 13⟩ rfl
    ⟨"/tmp/testdir", "testdir", ArchiveFormat.ArchiveTarGz⟩ "testdir" []

/-! Lemmas connecting the walk-based archive writers to the expected
decoded listing. -/

theorem FSNode.inductionOn {P : FSNode → Prop}
    (hfile : ∀ n r c, P (FSNode.file n r c))
    (hdir : ∀ n cs, (∀ c ∈ cs, P c) → P (FSNode.dir n cs)) :
    ∀ t, P t
  | FSNode.file n r c => hfile n r c
  | FSNode.dir n cs =>
      hdir n cs (fun c hc => FSNode.inductionOn hfile hdir c)
termination_by t => sizeOf t
decreasing_by exact sizeOf_lt_of_mem_children hc

theorem walkList_spec (l : List FSNode)
    (ih : ∀ c ∈ l, ∀ pre, (walk c).map
        (fun pr => (joinPath pre pr.1, nodeContent pr.2)) = specList pre c) :
    ∀ pre, (walkList l).map
        (fun pr => (joinPath pre pr.1, nodeContent pr.2)) =
      specListChildren pre l := by
  induction l with
  | nil => intro pre; simp [walkList, specListChildren]
  | cons c rest ihl =>
      intro pre
      simp only [walkList, specListChildren, List.map_append, List.map_map]
      congr 1
      · have hcomp : ((fun pr : List String × FSNode =>
            (joinPath pre pr.1, nodeContent pr.2)) ∘
            (fun pr : List String × FSNode =>
              (FSNode.name c :: pr.1, pr.2))) =
            (fun pr : List String × FSNode =>
              (joinPath (pre ++ "/" ++ FSNode.name c) pr.1,
                nodeContent pr.2)) := by
          funext pr
          rfl
        rw [hcomp, ih c (List.mem_cons_self c rest)]
      · exact ihl (fun c' hc' => ih c' (List.mem_cons_of_mem c hc')) pre

theorem walk_spec (t : FSNode) : ∀ pre,
    (walk t).map (fun pr => (joinPath pre pr.1, nodeContent pr.2)) =
      specList pre t := by
  induction t using FSNode.inductionOn with
  | hfile n r c => intro pre; simp [walk, specList, joinPath, nodeContent]
  | hdir n cs ih =>
      intro pre
      simp only [walk, specList, List.map_cons]
      rw [walkList_spec (sortNodes cs)
        (fun c hc => ih c (mem_sortNodes hc)) pre]
      rfl

theorem allReadableList_mem {c : FSNode} : ∀ {l : List FSNode},
    allReadableList l = true → c ∈ l → allReadable c = true := by
  intro l
  induction l with
  | nil => intro _ hmem; simp at hmem
  | cons d ds ih =>
      intro hall hmem
      rw [allReadableList, Bool.and_eq_true] at hall
      rcases List.mem_cons.mp hmem with rfl | hmem
      · exact hall.1
      · exact ih hall.2 hmem

theorem walkList_readable (l : List FSNode)
    (h : ∀ c ∈ l, ∀ pr ∈ walk c, nodeReadable pr.2 = true) :
    ∀ pr ∈ walkList l, nodeReadable pr.2 = true := by
  induction l with
  | nil => simp [walkList]
  | cons c rest ih =>
      intro pr hpr
      rw [walkList] at hpr
      rcases List.mem_append.mp hpr with hpr | hpr
      · obtain ⟨q, hq, rfl⟩ := List.mem_map.mp hpr
        exact h c (List.mem_cons_self c rest) q hq
      · exact ih (fun c' hc' => h c' (List.mem_cons_of_mem c hc')) pr hpr

theorem walk_readable (t : FSNode) (h : allReadable t = true) :
    ∀ pr ∈ walk t, nodeReadable pr.2 = true := by
  induction t using FSNode.inductionOn with
  | hfile n r c =>
      intro pr hpr
      rw [walk, List.mem_singleton] at hpr
      subst hpr
      rw [allReadable] at h
      simpa [nodeReadable] using h
  | hdir n cs ih =>
      intro pr hpr
      rw [walk] at hpr
      rcases List.mem_cons.mp hpr with rfl | hpr
      · rfl
      · refine walkList_readable (sortNodes cs) ?_ pr hpr
        intro c hc
        have hc' := mem_sortNodes hc
        rw [allReadable] at h
        exact ih c hc' (allReadableList_mem h hc')

theorem tarWalkStep_ok (b : String) (pr : List String × FSNode)
    (h : nodeReadable pr.2 = true) :
    tarWalkStep b pr = Except.ok (tarEntryPure b pr) := by
  obtain ⟨path, node⟩ := pr
  cases node with
  | dir n cs => rfl
  | file n r c =>
      rw [nodeReadable] at h
      simp [tarWalkStep, tarEntryPure, h]

theorem zipWalkStep_ok (b : String) (pr : List String × FSNode)
    (h : nodeReadable pr.2 = true) :
    zipWalkStep b pr = Except.ok (zipEntryPure b pr) := by
  obtain ⟨path, node⟩ := pr
  cases node with
  | dir n cs => rfl
  | file n r c =>
      rw [nodeReadable] at h
      simp [zipWalkStep, zipEntryPure, h]

theorem tarWalkEvents_ok (b : String) :
    ∀ l, (∀ pr ∈ l, nodeReadable pr.2 = true) →
      tarWalkEvents b l =
        (l.map (fun pr => TarEvent.header (tarEntryPure b pr)),
          Except.ok ()) := by
  intro l
  induction l with
  | nil => intro _; rfl
  | cons pr rest ih =>
      intro h
      unfold tarWalkEvents
      rw [tarWalkStep_ok b pr (h pr (List.mem_cons_self pr rest)),
        ih (fun q hq => h q (List.mem_cons_of_mem pr hq))]
      rfl

theorem mapM_ok {α β : Type} (f : α → Except String β) (g : α → β) :
    ∀ l : List α, (∀ x ∈ l, f x = Except.ok (g x)) →
      l.mapM f = Except.ok (l.map g) := by
  intro l
  induction l with
  | nil => intro _; rfl
  | cons x xs ih =>
      intro h
      rw [List.mapM_cons, h x (List.mem_cons_self x xs),
        ih (fun y hy => h y (List.mem_cons_of_mem x hy))]
      rfl

theorem filterMap_header (b : String) (l : List (List String × FSNode)) :
    List.filterMap ((fun ev =>
        match ev with
        | TarEvent.header e => some e
        | _ => none) ∘
      (fun pr => TarEvent.header (tarEntryPure b pr))) l =
      l.map (tarEntryPure b) := by
  induction l with
  | nil => rfl
  | cons pr rest ih => simp [List.filterMap_cons, Function.comp, ih]

theorem writeTarArchive_ok (p : archiveProvider) (t : FSNode)
    (hread : allReadable t = true) :
    tarEntriesOf (p.writeTarArchive t) =
      Except.ok ((walk t).map (tarEntryPure (filepath.Base p.dirPath))) := by
  simp only [archiveProvider.writeTarArchive, tarEntriesOf,
    tarWalkEvents_ok (filepath.Base p.dirPath) (walk t)
      (walk_readable t hread)]
  cases p.format <;>
    simp [pushDefer, List.filterMap_append, filterMap_header]

theorem writeZipArchive_ok (p : archiveProvider) (t : FSNode)
    (hread : allReadable t = true) :
    p.writeZipArchive t =
      Except.ok ((walk t).map (zipEntryPure (filepath.Base p.dirPath))) := by
  unfold archiveProvider.writeZipArchive
  exact mapM_ok _ _ (walk t)
    (fun pr hpr => zipWalkStep_ok _ pr (walk_readable t hread pr hpr))

/-- C4: for every fully readable directory tree with a file at the top
level and a file in a nested subdirectory, the entry stream built by the
archive writer decodes (through the external codecs) to exactly the tree's
entries: every relative path prefixed with the directory's display name,
with byte contents identical to the source files.  The tar conjuncts cover
both tar-based kinds (tar+gzip and plain tar wrap the same tar entry
stream in different codecs); the zip conjunct shows the same listing up to
zip's slash-marked directory names. -/
theorem archive_roundtrip (p : archiveProvider) (t : FSNode)
    (hread : allReadable t = true)
    (hshape : hasTopLevelFile t = true ∧ hasNestedFile t = true)
    (hname : filepath.Base p.dirPath = p.dirName) :
    (tarEntriesOf (p.writeTarArchive t) =
      Except.ok ((walk t).map (tarEntryPure p.dirName))) ∧
    (tarDecodedListing ((walk t).map (tarEntryPure p.dirName)) =
      specList p.dirName t) ∧
    (p.writeZipArchive t =
      Except.ok ((walk t).map (zipEntryPure p.dirName))) ∧
    (zipDecodedListing ((walk t).map (zipEntryPure p.dirName)) =
      (specList p.dirName t).map (fun en =>
        ((match en.2 with
          | none => en.1 ++ "/"
          | some _ => en.1), en.2))) := by
  refine ⟨?_, ?_, ?_, ?_⟩
  · rw [← hname]
    exact writeTarArchive_ok p t hread
  · have hcomp : ((fun e : TarEntry =>
        (e.name,
          match e.typeflag with
          | TarTypeflag.TypeDir => none
          | TarTypeflag.TypeReg => some e.content)) ∘
        tarEntryPure p.dirName) =
        (fun pr : List String × FSNode =>
          (joinPath p.dirName pr.1, nodeContent pr.2)) := by
      funext pr
      obtain ⟨path, node⟩ := pr
      cases node <;> rfl
    unfold tarDecodedListing
    rw [List.map_map, hcomp, walk_spec]
  · rw [← hname]
    exact writeZipArchive_ok p t hread
  · have hcomp : ((fun e : ZipEntry =>
        (e.name,
          match e.method with
          | ZipMethod.Store => none
          | ZipMethod.Deflate => some e.content)) ∘
        zipEntryPure p.dirName) =
        ((fun en : String × Option (List Nat) =>
          ((match en.2 with
            | none => en.1 ++ "/"
            | some _ => en.1), en.2)) ∘
         (fun pr : List String × FSNode =>
           (joinPath p.dirName pr.1, nodeContent pr.2))) := by
      funext pr
      obtain ⟨path, node⟩ := pr
      cases node <;> rfl
    unfold zipDecodedListing
    rw [List.map_map, hcomp, ← List.map_map, walk_spec]

/-- Witness for C4 on the scenario B tree served as `testdir`. -/
theorem archive_roundtrip_witness :
    (tarEntriesOf ((⟨"/tmp/testdir", "testdir",
        ArchiveFormat.ArchiveTarGz⟩ : archiveProvider).writeTarArchive
        (FSNode.dir "testdir"
          [FSNode.file "file1.txt" true [1, 2],
           FSNode.dir "subdir" [FSNode.file "file2.txt" true [3]]])) =
      Except.ok ((walk (FSNode.dir "testdir"
          [FSNode.file "file1.txt" true [1, 2],
           FSNode.dir "subdir" [FSNode.file "file2.txt" true [3]]])).map
        (tarEntryPure "testdir"))) ∧
    (tarDecodedListing ((walk (FSNode.dir "testdir"
          [FSNode.file "file1.txt" true [1, 2],
           FSNode.dir "subdir" [FSNode.file "file2.txt" true [3]]])).map
        (tarEntryPure "testdir")) =
      specList "testdir" (FSNode.dir "testdir"
          [FSNode.file "file1.txt" true [1, 2],
           FSNode.dir "subdir" [FSNode.file "file2.txt" true [3]]])) ∧
    ((⟨"/tmp/testdir", "testdir",
        ArchiveFormat.ArchiveTarGz⟩ : archiveProvider).writeZipArchive
        (FSNode.dir "testdir"
          [FSNode.file "file1.txt" true [1, 2],
           FSNode.dir "subdir" [FSNode.file "file2.txt" true [3]]]) =
      Except.ok ((walk (FSNode.dir "testdir"
          [FSNode.file "file1.txt" true [1, 2],
           FSNode.dir "subdir" [FSNode.file "file2.txt" true [3]]])).map
        (zipEntryPure "testdir"))) ∧
    (zipDecodedListing ((walk (FSNode.dir "testdir"
          [FSNode.file "file1.txt" true [1, 2],
           FSNode.dir "subdir" [FSNode.file "file2.txt" true [3]]])).map
        (zipEntryPure "testdir")) =
      (specList "testdir" (FSNode.dir "testdir"
          [FSNode.file "file1.txt" true [1, 2],
           FSNode.dir "subdir" [FSNode.file "file2.txt" true [3]]])).map
        (fun en =>
          ((match en.2 with
            | none => en.1 ++ "/"
            | some _ => en.1), en.2))) :=
  archive_roundtrip
    ⟨"/tmp/testdir", "testdir", ArchiveFormat.ArchiveTarGz⟩
    (FSNode.dir "testdir"
      [FSNode.file "file1.txt" true [1, 2],
       FSNode.dir "subdir" [FSNode.file "file2.txt" true [3]]])
    rfl ⟨rfl, rfl⟩ rfl

/-- C5: the entry naming contract of both archive writers on every readable
directory tree: entries are named `Join(displayName, relPath)` for the
relative paths visited by the walk, the walk's first entry is the root
directory itself, tar directory entries carry the directory type flag
(and only they do), zip directory entries keep the trailing separator and
the Store method while zip file entries use Deflate. -/
theorem archive_entry_contract (p : archiveProvider) (t : FSNode)
    (hread : allReadable t = true) (hdir : t.isDir = true)
    (hname : filepath.Base p.dirPath = p.dirName) :
    (tarEntriesOf (p.writeTarArchive t) =
      Except.ok ((walk t).map (tarEntryPure p.dirName)) ∧
     p.writeZipArchive t =
      Except.ok ((walk t).map (zipEntryPure p.dirName))) ∧
    (((walk t).map (tarEntryPure p.dirName)).head? =
      some ⟨p.dirName, TarTypeflag.TypeDir, []⟩) ∧
    (((walk t).map (zipEntryPure p.dirName)).head? =
      some ⟨p.dirName ++ "/", ZipMethod.Store, []⟩) ∧
    (∀ e ∈ (walk t).map (tarEntryPure p.dirName),
      ∃ rel, rel ∈ (walk t).map Prod.fst ∧
        e.name = joinPath p.dirName rel) ∧
    (∀ pr ∈ walk t,
      ((tarEntryPure p.dirName pr).typeflag = TarTypeflag.TypeDir ↔
        pr.2.isDir = true)) ∧
    (∀ pr ∈ walk t,
      (pr.2.isDir = true →
        (zipEntryPure p.dirName pr).name =
          joinPath p.dirName pr.1 ++ "/" ∧
        (zipEntryPure p.dirName pr).method = ZipMethod.Store) ∧
      (pr.2.isDir = false →
        (zipEntryPure p.dirName pr).name = joinPath p.dirName pr.1 ∧
        (zipEntryPure p.dirName pr).method = ZipMethod.Deflate)) := by
  obtain ⟨n, cs, rfl⟩ : ∃ n cs, t = FSNode.dir n cs := by
    cases t with
    | file n r c => simp [FSNode.isDir] at hdir
    | dir n cs => exact ⟨n, cs, rfl⟩
  refine ⟨⟨?_, ?_⟩, ?_, ?_, ?_, ?_, ?_⟩
  · rw [← hname]
    exact writeTarArchive_ok p _ hread
  · rw [← hname]
    exact writeZipArchive_ok p _ hread
  · rw [walk]
    rfl
  · rw [walk]
    rfl
  · intro e he
    obtain ⟨pr, hpr, rfl⟩ := List.mem_map.mp he
    refine ⟨pr.1, List.mem_map.mpr ⟨pr, hpr, rfl⟩, ?_⟩
    obtain ⟨path, node⟩ := pr
    cases node <;> rfl
  · intro pr _
    obtain ⟨path, node⟩ := pr
    cases node <;> simp [tarEntryPure, FSNode.isDir]
  · intro pr _
    obtain ⟨path, node⟩ := pr
    cases node with
    | file fn fr fc =>
        exact ⟨fun hcontra => by simp [FSNode.isDir] at hcontra,
          fun _ => ⟨rfl, rfl⟩⟩
    | dir dn dcs =>
        exact ⟨fun _ => ⟨rfl, rfl⟩,
          fun hcontra => by simp [FSNode.isDir] at hcontra⟩

/-- Witness for C5 on the scenario B tree served as `testdir`. -/
theorem archive_entry_contract_witness :
    (tarEntriesOf ((⟨"/tmp/testdir", "testdir",
        ArchiveFormat.ArchiveTar⟩ : archiveProvider).writeTarArchive
        (FSNode.dir "testdir"
          [FSNode.file "file1.txt" true [1, 2],
           FSNode.dir "subdir" [FSNode.file "file2.txt" true [3]]])) =
      Except.ok ((walk (FSNode.dir "testdir"
          [FSNode.file "file1.txt" true [1, 2],
           FSNode.dir "subdir" [FSNode.file "file2.txt" true [3]]])).map
        (tarEntryPure "testdir")) ∧
     (⟨"/tmp/testdir", "testdir",
        ArchiveFormat.ArchiveTar⟩ : archiveProvider).writeZipArchive
        (FSNode.dir "testdir"
          [FSNode.file "file1.txt" true [1, 2],
           FSNode.dir "subdir" [FSNode.file "file2.txt" true [3]]]) =
      Except.ok ((walk (FSNode.dir "testdir"
          [FSNode.file "file1.txt" true [1, 2],
           FSNode.dir "subdir" [FSNode.file "file2.txt" true [3]]])).map
        (zipEntryPure "testdir"))) ∧
    (((walk (FSNode.dir "testdir"
          [FSNode.file "file1.txt" true [1, 2],
           FSNode.dir "subdir" [FSNode.file "file2.txt" true [3]]])).map
        (tarEntryPure "testdir")).head? =
      some ⟨"testdir", TarTypeflag.TypeDir, []⟩) ∧
    (((walk (FSNode.dir "testdir"
          [FSNode.file "file1.txt" true [1, 2],
           FSNode.dir "subdir" [FSNode.file "file2.txt" true [3]]])).map
        (zipEntryPure "testdir")).head? =
      some ⟨"testdir" ++ "/", ZipMethod.Store, []⟩) ∧
    (∀ e ∈ (walk (FSNode.dir "testdir"
          [FSNode.file "file1.txt" true [1, 2],
           FSNode.dir "subdir" [FSNode.file "file2.txt" true [3]]])).map
        (tarEntryPure "testdir"),
      ∃ rel, rel ∈ (walk (FSNode.dir "testdir"
          [FSNode.file "file1.txt" true [1, 2],
           FSNode.dir "subdir" [FSNode.file "file2.txt" true [3]]])).map
        Prod.fst ∧
        e.name = joinPath "testdir" rel) ∧
    (∀ pr ∈ walk (FSNode.dir "testdir"
          [FSNode.file "file1.txt" true [1, 2],
           FSNode.dir "subdir" [FSNode.file "file2.txt" true [3]]]),
      ((tarEntryPure "testdir" pr).typeflag = TarTypeflag.TypeDir ↔
        pr.2.isDir = true)) ∧
    (∀ pr ∈ walk (FSNode.dir "testdir"
          [FSNode.file "file1.txt" true [1, 2],
           FSNode.dir "subdir" [FSNode.file "file2.txt" true [3]]]),
      (pr.2.isDir = true →
        (zipEntryPure "testdir" pr).name =
          joinPath "testdir" pr.1 ++ "/" ∧
        (zipEntryPure "testdir" pr).method = ZipMethod.Store) ∧
      (pr.2.isDir = false →
        (zipEntryPure "testdir" pr).name = joinPath "testdir" pr.1 ∧
        (zipEntryPure "testdir" pr).method = ZipMethod.Deflate)) :=
  archive_entry_contract
    ⟨"/tmp/testdir", "testdir", ArchiveFormat.ArchiveTar⟩
    (FSNode.dir "testdir"
      [FSNode.file "file1.txt" true [1, 2],
       FSNode.dir "subdir" [FSNode.file "file2.txt" true [3]]])
    rfl rfl rfl

/-- C10: for every filename, the historical variant's `detectMIMEType` and
the unified variant's `fileProvider.ContentType` agree, and both equal the
extension lookup with the `application/octet-stream` fallback for an empty
or unknown extension.  The hypothesis records that `mime.TypeByExtension`
returns the empty string on the empty extension (its table only holds keys
beginning with a dot). -/
theorem detectMIMEType_refines_ContentType (typeByExtension : String → String)
    (hempty : typeByExtension "" = "") (fp : fileProvider) :
    detectMIMEType typeByExtension fp.fileName =
      fileProvider.ContentType typeByExtension fp ∧
    detectMIMEType typeByExtension fp.fileName =
      (if filepath.Ext fp.fileName = "" ∨
          typeByExtension (filepath.Ext fp.fileName) = "" then
        "application/octet-stream"
       else typeByExtension (filepath.Ext fp.fileName)) := by
  unfold detectMIMEType fileProvider.ContentType
  by_cases hext : filepath.Ext fp.fileName = ""
  · simp [hext, hempty]
  · by_cases hlu : typeByExtension (filepath.Ext fp.fileName) = ""
    · simp [hext, hlu]
    · simp [hext, hlu]

/-- Witness for C10 at a one-entry mime table, a known-extension name and
an unknown-extension name. -/
theorem detectMIMEType_refines_ContentType_witness :
    (detectMIMEType
        (fun s => if s = ".txt" then "text/plain; charset=utf-8" else "")
        (fileProvider.mk "/tmp/f" "f.txt" 13).fileName =
      fileProvider.ContentType
        (fun s => if s = ".txt" then "text/plain; charset=utf-8" else "")
        (fileProvider.mk "/tmp/f" "f.txt" 13) ∧
    detectMIMEType
        (fun s => if s = ".txt" then "text/plain; charset=utf-8" else "")
        (fileProvider.mk "/tmp/f" "f.txt" 13).fileName =
      (if filepath.Ext (fileProvider.mk "/tmp/f" "f.txt" 13).fileName = "" ∨
          (fun s => if s = ".txt" then "text/plain; charset=utf-8" else "")
            (filepath.Ext (fileProvider.mk "/tmp/f" "f.txt" 13).fileName) = ""
        then "application/octet-stream"
        else (fun s => if s = ".txt" then "text/plain; charset=utf-8" else "")
          (filepath.Ext (fileProvider.mk "/tmp/f" "f.txt" 13).fileName))) ∧
    (detectMIMEType
        (fun s => if s = ".txt" then "text/plain; charset=utf-8" else "")
        (fileProvider.mk "/tmp/u" "unknown.qzx" 7).fileName =
      fileProvider.ContentType
        (fun s => if s = ".txt" then "text/plain; charset=utf-8" else "")
        (fileProvider.mk "/tmp/u" "unknown.qzx" 7) ∧
    detectMIMEType
        (fun s => if s = ".txt" then "text/plain; charset=utf-8" else "")
        (fileProvider.mk "/tmp/u" "unknown.qzx" 7).fileName =
      (if filepath.Ext (fileProvider.mk "/tmp/u" "unknown.qzx" 7).fileName = "" ∨
          (fun s => if s = ".txt" then "text/plain; charset=utf-8" else "")
            (filepath.Ext
              (fileProvider.mk "/tmp/u" "unknown.qzx" 7).fileName) = ""
        then "application/octet-stream"
        else (fun s => if s = ".txt" then "text/plain; charset=utf-8" else "")
          (filepath.Ext (fileProvider.mk "/tmp/u" "unknown.qzx" 7).fileName))) :=
  ⟨detectMIMEType_refines_ContentType
      (fun s => if s = ".txt" then "text/plain; charset=utf-8" else "")
      rfl (fileProvider.mk "/tmp/f" "f.txt" 13),
   detectMIMEType_refines_ContentType
      (fun s => if s = ".txt" then "text/plain; charset=utf-8" else "")
      rfl (fileProvider.mk "/tmp/u" "unknown.qzx" 7)⟩

end Userve
